import Mathlib

/-!
# mem_swap: a RAM-backed block device (src/mem_swap.c)

Shallow embedding of the driver's storage engine and proofs about it.

Conventions of the embedding (LP64 Linux, as the driver's default of
2048*1024 pages of 4096 bytes presupposes):

* `sector_t` and `unsigned long` values are natural numbers below `2 ^ 64`;
  `int` values are integers in `[-2^31, 2^31)`; storing a wider value into an
  `int` keeps its low 32 bits (`to_int`), and `int` arithmetic wraps
  (the kernel is built with `-fno-strict-overflow`).
* `PAGE_SIZE` comes from the kernel headers and is a parameter of every
  definition that uses it; `SECTORS_PER_PAGE` is derived from it as in the source.
* `u8 **data` is a list of pages, a page is a list of bytes, `char *buffer`
  is a list of bytes.  A dereference `dev->data[k]` with `k` outside the array
  is recorded (field `derefs`) and has no effect on the modelled memory.
* The block layer (`blk_fetch_request`, `__blk_end_request_cur`,
  `__blk_end_request_all`) and the allocator (`vmalloc`, `kmalloc`, `kfree`)
  are the environment; their documented behaviour is modelled below.
-/

namespace MemSwap

/-! ## Machine integers -/

/-- Conversion of an integer value to C `int`: the low 32 bits, read as two's complement. -/
def to_int (n : Int) : Int := (n + 2 ^ 31) % 2 ^ 32 - 2 ^ 31

/-- Conversion of an integer value to C `unsigned long` (64 bits). -/
def to_ulong (n : Int) : Nat := (n % 2 ^ 64).toNat

/-- Conversion of an `unsigned long` value to C `long` (64 bits, two's complement). -/
def to_long (n : Int) : Int := (n + 2 ^ 63) % 2 ^ 64 - 2 ^ 63

/-- The operator `&` on two `long` values: bitwise and of their 64-bit patterns. -/
def land_long (a b : Int) : Int := to_long ((to_ulong a &&& to_ulong b : Nat) : Int)

/-! ## Data model -/

/-- One byte of device memory (`u8`). -/
abbrev u8 := Fin 256

/-- One page of device memory: the target of a `u8 *`. -/
abbrev Page := List u8

/-- The macro `KERNEL_SECTOR_SIZE`, 512. -/
def KERNEL_SECTOR_SIZE : Nat := 512

/-- The macro `SECTORS_PER_PAGE`, `(PAGE_SIZE / KERNEL_SECTOR_SIZE)`. -/
def SECTORS_PER_PAGE (PAGE_SIZE : Nat) : Nat := PAGE_SIZE / KERNEL_SECTOR_SIZE

/-- The `struct mem_swap_device`: `size` and the page table `data`
(the spinlock and the gendisk pointer carry no data of interest). -/
structure mem_swap_device where
  size : Nat
  data : List Page
deriving DecidableEq, Repr

/-- The two global spinlocks of the driver. -/
inductive Lock where
  | rx_lock
  | tx_lock
deriving DecidableEq, Repr

/-- One operation on a spinlock. -/
inductive LockOp where
  | spin_lock (l : Lock)
  | spin_unlock (l : Lock)
deriving DecidableEq, Repr

/-- The exit taken by `mem_swap_transfer`: the `pr_err("incorrect align ...")` return,
the `printk("... Beyond-end write ...")` return, or the end of the function after the copy. -/
inductive Report where
  | incorrect_align
  | beyond_end
  | copied
deriving DecidableEq, Repr

/-- Everything `mem_swap_transfer` leaves behind: the exit taken, the page table, the caller's
buffer, the lock operations performed in order, and the indices `page + i` at which
`dev->data` was dereferenced, in order. -/
structure Transfer where
  report : Report
  data : List Page
  buffer : List u8
  locks : List LockOp
  derefs : List Int
deriving DecidableEq, Repr

/-! ## mem_swap_transfer -/

/-- The kernel's `copy_page(to, from)`: the first `PAGE_SIZE` bytes of `src` replace those of `dst`. -/
def copy_page (PAGE_SIZE : Nat) (dst src : List u8) : List u8 :=
  src.take PAGE_SIZE ++ dst.drop PAGE_SIZE

/-- Body of the write loop: `copy_page(dev->data[page + i], buffer + PAGE_SIZE * i)`.
An index outside the page table is only recorded in the trace: what the code does there (a wild
write or a fault with `tx_lock` held) is not modelled, so general theorems carry hypotheses
that keep every index inside the table. -/
def write_body (PAGE_SIZE : Nat) (page : Int) (buffer : List u8)
    (st : List Page × List Int) (i : Nat) : List Page × List Int :=
  let k := to_int (page + i)
  let data :=
    if 0 ≤ k then
      match st.1[k.toNat]? with
      | some pg => st.1.set k.toNat (copy_page PAGE_SIZE pg (buffer.drop (PAGE_SIZE * i)))
      | none => st.1
    else st.1
  (data, st.2 ++ [k])

/-- Body of the read loop: `copy_page(buffer + PAGE_SIZE * i, dev->data[page + i])`.
An index outside the page table is only recorded in the trace: what the code does there (a copy
of foreign memory or a fault with `rx_lock` held) is not modelled, so general theorems carry
hypotheses that keep every index inside the table. -/
def read_body (PAGE_SIZE : Nat) (page : Int) (data : List Page)
    (st : List u8 × List Int) (i : Nat) : List u8 × List Int :=
  let k := to_int (page + i)
  let buffer :=
    if 0 ≤ k then
      match data[k.toNat]? with
      | some pg =>
        st.1.take (PAGE_SIZE * i) ++ copy_page PAGE_SIZE (st.1.drop (PAGE_SIZE * i)) pg
      | none => st.1
    else st.1
  (buffer, st.2 ++ [k])

/-- The function `mem_swap_transfer(dev, sector, nsect, buffer, write)`, with the global `npages`
and the header constant `PAGE_SIZE` as parameters. -/
def mem_swap_transfer (PAGE_SIZE : Nat) (npages : Int) (dev : mem_swap_device)
    (sector nsect : Nat) (buffer : List u8) (write : Int) : Transfer :=
  if sector % SECTORS_PER_PAGE PAGE_SIZE ≠ 0 ∨ nsect % SECTORS_PER_PAGE PAGE_SIZE ≠ 0 then
    { report := .incorrect_align, data := dev.data, buffer := buffer, locks := [], derefs := [] }
  else
    let page : Int := to_int (sector / SECTORS_PER_PAGE PAGE_SIZE : Nat)
    let npage : Int := to_int (nsect / SECTORS_PER_PAGE PAGE_SIZE : Nat)
    if to_int (to_int (page + npage) - 1) ≥ npages then
      { report := .beyond_end, data := dev.data, buffer := buffer, locks := [], derefs := [] }
    else if write ≠ 0 then
      let r := (List.range npage.toNat).foldl (write_body PAGE_SIZE page buffer) (dev.data, [])
      { report := .copied, data := r.1, buffer := buffer,
        locks := [.spin_lock .tx_lock, .spin_unlock .tx_lock], derefs := r.2 }
    else
      let r := (List.range npage.toNat).foldl (read_body PAGE_SIZE page dev.data) (buffer, [])
      { report := .copied, data := dev.data, buffer := r.1,
        locks := [.spin_lock .rx_lock, .spin_unlock .rx_lock], derefs := r.2 }

/-- Bytes of pages `base .. base + n - 1` of a page table, concatenated
(used to state what a read transfer puts into the buffer). -/
def pages_bytes (data : List Page) (base : Nat) : Nat → List u8
  | 0 => []
  | n + 1 => pages_bytes data base n ++ data.getD (base + n) []

/-! ## mem_swap_init -/

/-- Error number `ENOMEM`. -/
def ENOMEM : Int := 12

/-- Error number `EIO`. -/
def EIO : Int := 5

/-- What the kernel answers to `mem_swap_init`: whether `vmalloc` succeeds, whether the
`i`-th call of `kmalloc` (counted from 0) succeeds, the content `junk i b` of byte `b` of the
uninitialised block the `i`-th `kmalloc` returns, whether `blk_init_queue` and `alloc_disk`
succeed, and the value `register_blkdev` returns. -/
structure InitEnv where
  vmalloc_ok : Bool
  kmalloc_ok : Nat → Bool
  junk : Nat → Nat → u8
  blk_init_queue_ok : Bool
  register_blkdev : Int
  alloc_disk_ok : Bool

/-- Memory held by the driver during `mem_swap_init`.  `ptrs` is the array `device.data` as an
array of pointers (`none` is `NULL`, `some a` points to the block of the `a`-th `kmalloc`),
`pages` the content of the blocks it points to, `live` the `kmalloc` blocks not yet freed,
`kfree_null` the number of `kfree(NULL)` calls, `bad_free` the blocks passed to `kfree` while
not live, `table_live` whether the `vmalloc` array is still allocated. -/
structure Kmem where
  ptrs : List (Option Nat)
  pages : List Page
  live : List Nat
  kfree_null : Nat
  bad_free : List Nat
  table_live : Bool
deriving DecidableEq, Repr

/-- The allocator's `kfree(p)`: no effect on `NULL`, otherwise the block leaves `live`. -/
def kfree (m : Kmem) (p : Option Nat) : Kmem :=
  match p with
  | none => { m with kfree_null := m.kfree_null + 1 }
  | some a =>
    if a ∈ m.live then { m with live := m.live.erase a }
    else { m with bad_free := m.bad_free ++ [a] }

/-- The allocator's `vfree(device.data)`. -/
def vfree (m : Kmem) : Kmem := { m with table_live := false }

/-- The libc-style `memset(dst, c, n)`. -/
def memset (dst : List u8) (c : u8) (n : Nat) : List u8 :=
  List.replicate n c ++ dst.drop n

/-- The allocation loop of `mem_swap_init`, `for (i = 0; i < npages; i++)`, from index `i` with
`todo` iterations left.  The result is `true` when the loop ran to its end and `false` when it
took the `return -ENOMEM` inside. -/
def alloc_loop (PAGE_SIZE : Nat) (env : InitEnv) : Nat → Nat → Kmem → Kmem × Bool
  | 0, _, m => (m, true)
  | todo + 1, i, m =>
    if env.kmalloc_ok i then
      -- device.data[i] = kmalloc(PAGE_SIZE, GFP_KERNEL); memset(device.data[i], 0, PAGE_SIZE);
      let block : Page := (List.range PAGE_SIZE).map (env.junk i)
      alloc_loop PAGE_SIZE env todo (i + 1)
        { m with ptrs := m.ptrs ++ [some i], pages := m.pages ++ [memset block 0 PAGE_SIZE],
                 live := m.live ++ [i] }
    else
      -- device.data[i] == NULL: for (j = 0; j < i - 1; j++) kfree(device.data[i]);
      let m1 := { m with ptrs := m.ptrs ++ [none] }
      let m2 := (List.range ((i : Int) - 1).toNat).foldl
        (fun acc _ => kfree acc (m1.ptrs.getD i none)) m1
      (vfree m2, false)

/-- What `mem_swap_init` leaves behind: its return value, the global `device`, the driver's
memory, the capacity handed to `set_capacity`, and whether `add_disk` was reached. -/
structure InitResult where
  ret : Int
  device : mem_swap_device
  kmem : Kmem
  capacity : Nat
  added : Bool
deriving DecidableEq, Repr

/-- The function `mem_swap_init()`, with the module parameter `npages`, the header constant
`PAGE_SIZE` and the kernel's answers as parameters. -/
def mem_swap_init (PAGE_SIZE : Nat) (npages : Int) (env : InitEnv) : InitResult :=
  let size := to_ulong (npages * PAGE_SIZE)
  let m0 : Kmem :=
    { ptrs := [], pages := [], live := [], kfree_null := 0, bad_free := [], table_live := false }
  if ¬ env.vmalloc_ok then
    { ret := -ENOMEM, device := { size := size, data := [] }, kmem := m0, capacity := 0,
      added := false }
  else
    match alloc_loop PAGE_SIZE env npages.toNat 0 { m0 with table_live := true } with
    | (m, false) =>
      { ret := -ENOMEM, device := { size := size, data := m.pages }, kmem := m, capacity := 0,
        added := false }
    | (m, true) =>
      if env.blk_init_queue_ok ∧ 0 ≤ env.register_blkdev ∧ env.alloc_disk_ok then
        { ret := 0, device := { size := size, data := m.pages }, kmem := m,
          capacity := to_ulong (npages * SECTORS_PER_PAGE PAGE_SIZE), added := true }
      else
        -- out: for (i = 0; i < npages; i++) kfree(device.data[i]); vfree(device.data);
        let m1 := (List.range npages.toNat).foldl (fun acc i => kfree acc (acc.ptrs.getD i none)) m
        { ret := -ENOMEM, device := { size := size, data := m.pages }, kmem := vfree m1,
          capacity := 0, added := false }

/-! ## mem_swap_getgeo -/

/-- The kernel's `struct hd_geometry`. -/
structure hd_geometry where
  heads : Nat
  sectors : Nat
  cylinders : Nat
  start : Nat
deriving DecidableEq, Repr

/-- The function `mem_swap_getgeo`, reading the global `device`: its return value and the
geometry it stores.  `cyl_bits` is the width of the field `cylinders`, which the kernel header
declares (`unsigned short` in Linux, so 16); `heads` and `sectors` are `unsigned char`. -/
def mem_swap_getgeo (PAGE_SIZE cyl_bits : Nat) (device : mem_swap_device) : Int × hd_geometry :=
  let size : Int := to_long (to_ulong ((device.size * (PAGE_SIZE / KERNEL_SECTOR_SIZE) : Nat) : Int))
  (0, { cylinders := (Int.shiftRight (land_long size (Int.not 0x3f)) 6 % 2 ^ cyl_bits).toNat,
        heads := 4 % 2 ^ 8,
        sectors := 16 % 2 ^ 8,
        start := 0 })

/-! ## mem_swap_request -/

/-- The field `cmd_type` of a request, as far as the driver looks at it. -/
inductive CmdType where
  | REQ_TYPE_FS
  | other
deriving DecidableEq, Repr

/-- One consecutively mapped chunk of a request: `blk_rq_cur_sectors` and `bio_data`. -/
structure Chunk where
  nsect : Nat
  buffer : List u8
deriving DecidableEq, Repr

/-- The kernel's `struct request` as the driver sees it: a `tag` that identifies it, its
command type, `blk_rq_pos`, the current chunk, the chunks after it, and `rq_data_dir`. -/
structure request where
  tag : Nat
  cmd_type : CmdType
  pos : Nat
  cur : Chunk
  rest : List Chunk
  dir : Int
deriving DecidableEq, Repr

/-- A request handed back to the block layer as completed, with its error code (0 = success). -/
structure Completion where
  tag : Nat
  error : Int
deriving DecidableEq, Repr

/-- The block layer's `blk_fetch_request(q)`: the next pending request, or `NULL`. -/
def blk_fetch_request (q : List request) : Option request × List request :=
  match q with
  | [] => (none, [])
  | r :: rest => (some r, rest)

/-- The block layer's `__blk_end_request_cur(rq, error)`: completes the current chunk.
Returns `false` with the completion when the request is finished, `true` with the request
advanced to its next chunk when buffers are still pending. -/
def __blk_end_request_cur (rq : request) (error : Int) : Bool × request × List Completion :=
  match rq.rest with
  | [] => (false, rq, [{ tag := rq.tag, error := error }])
  | c :: cs => (true, { rq with pos := rq.pos + rq.cur.nsect, cur := c, rest := cs }, [])

/-- The block layer's `__blk_end_request_all(rq, error)`: completes the whole request. -/
def __blk_end_request_all (rq : request) (error : Int) : List Completion :=
  [{ tag := rq.tag, error := error }]

/-- State of one run of `mem_swap_request`: the local `req`, the requests still in the queue,
the global `device`, the completions reported so far and the transfers performed so far
(each with the tag of its request). -/
structure Servicer where
  req : Option request
  queue : List request
  device : mem_swap_device
  completions : List Completion
  transfers : List (Nat × Transfer)
deriving DecidableEq, Repr

/-- One evaluation of `while (req != NULL) { ... }` in `mem_swap_request`: `none` when the
condition is false, otherwise the state after the body. -/
def request_step (PAGE_SIZE : Nat) (npages : Int) (s : Servicer) : Option Servicer :=
  match s.req with
  | none => none
  | some req =>
    if req.cmd_type ≠ .REQ_TYPE_FS then
      -- __blk_end_request_all(req, -EIO); continue;
      some { s with completions := s.completions ++ __blk_end_request_all req (- EIO) }
    else
      let t := mem_swap_transfer PAGE_SIZE npages s.device req.pos req.cur.nsect
        req.cur.buffer req.dir
      let s1 := { s with device := { s.device with data := t.data },
                         transfers := s.transfers ++ [(req.tag, t)] }
      match __blk_end_request_cur req 0 with
      | (true, req1, cs) => some { s1 with req := some req1, completions := s1.completions ++ cs }
      | (false, _, cs) =>
        let f := blk_fetch_request s1.queue
        some { s1 with req := f.1, queue := f.2, completions := s1.completions ++ cs }

/-- The `while` loop of `mem_swap_request`, run for at most `fuel` evaluations of its condition:
the state reached, and whether the loop has exited. -/
def request_loop (PAGE_SIZE : Nat) (npages : Int) : Nat → Servicer → Servicer × Bool
  | 0, s => (s, false)
  | fuel + 1, s =>
    match request_step PAGE_SIZE npages s with
    | none => (s, true)
    | some s1 => request_loop PAGE_SIZE npages fuel s1

/-- The function `mem_swap_request(q)` on the queue `q` and the global `device`. -/
def mem_swap_request (PAGE_SIZE : Nat) (npages : Int) (fuel : Nat) (device : mem_swap_device)
    (q : List request) : Servicer × Bool :=
  let f := blk_fetch_request q
  request_loop PAGE_SIZE npages fuel
    { req := f.1, queue := f.2, device := device, completions := [], transfers := [] }

/-- Number of chunks in a queue of requests: the number of transfers it takes to serve it. -/
def chunk_count (q : List request) : Nat :=
  (q.map (fun r => r.rest.length + 1)).sum

/-! ## Concrete inputs used below -/

/-- Sector just past the end of a request: its position plus the sectors of all its chunks. -/
def end_sector (r : request) : Nat :=
  r.pos + r.cur.nsect + (r.rest.map (fun c => c.nsect)).sum

/-- The scenario device of the specification: four zeroed pages of 4096 bytes. -/
def scenario_device : mem_swap_device :=
  { size := 4 * 4096, data := List.replicate 4 (List.replicate 4096 0) }

/-- A kernel in which every allocation and registration succeeds; fresh blocks hold `0x5A`. -/
def env_ok : InitEnv :=
  { vmalloc_ok := true, kmalloc_ok := fun _ => true, junk := fun _ _ => 0x5A,
    blk_init_queue_ok := true, register_blkdev := 250, alloc_disk_ok := true }

/-- A kernel in which exactly the `kmalloc` call for page `k` fails. -/
def env_fail_at (k : Nat) : InitEnv :=
  { env_ok with kmalloc_ok := fun i => i != k }

/-- A request that is not `REQ_TYPE_FS`. -/
def control_request : request :=
  { tag := 7, cmd_type := .other, pos := 0, cur := { nsect := 8, buffer := [] }, rest := [],
    dir := 0 }

/-- A storage request writing 8 sectors of `0xAA` from sector 0 on. -/
def aligned_write : request :=
  { tag := 8, cmd_type := .REQ_TYPE_FS, pos := 0,
    cur := { nsect := 8, buffer := List.replicate 4096 0xAA }, rest := [], dir := 1 }

/-- A storage request writing 8 sectors of `0xAA` from sector 1 on (misaligned start). -/
def misaligned_write : request :=
  { tag := 9, cmd_type := .REQ_TYPE_FS, pos := 1,
    cur := { nsect := 8, buffer := List.replicate 4096 0xAA }, rest := [], dir := 1 }

/-! ## Lemmas on the copy loops -/

/-- A value that fits in an `int` is unchanged by the conversion. -/
theorem to_int_of_lt (n : Int) (h0 : -2 ^ 31 ≤ n) (h1 : n < 2 ^ 31) : to_int n = n := by
  unfold to_int
  omega

/-- One iteration of the write loop on an index inside the page table. -/
theorem write_body_in_range (PS : Nat) (base : Nat) (buf : List u8) (st : List Page × List Int)
    (i : Nat) (pg : Page) (hpg : st.1[base + i]? = some pg) (hlen : st.1.length < 2 ^ 31) :
    write_body PS (base : Int) buf st i =
      (st.1.set (base + i) (copy_page PS pg (buf.drop (PS * i))), st.2 ++ [((base + i : Nat) : Int)]) := by
  have hlt : base + i < st.1.length := by
    by_contra hcon
    rw [List.getElem?_eq_none (by omega)] at hpg
    cases hpg
  have hk : to_int ((base : Int) + (i : Nat)) = ((base + i : Nat) : Int) := by
    rw [to_int_of_lt] <;> push_cast <;> omega
  have hnn : (0 : Int) ≤ ((base + i : Nat) : Int) := Int.ofNat_nonneg _
  simp only [write_body, hk, Int.toNat_ofNat, hpg, hnn, if_true]

/-- Effect of `n` iterations of the write loop on a range inside the page table:
pages `base .. base + n - 1` receive their chunk of the buffer, the others are unchanged, and
the indices dereferenced are `base, .., base + n - 1`. -/
theorem write_loop_spec (PS : Nat) (base : Nat) (buf : List u8) (data : List Page)
    (tr : List Int) (n : Nat) (hn : base + n ≤ data.length) (hlen : data.length < 2 ^ 31) :
    let r := (List.range n).foldl (write_body PS (base : Int) buf) (data, tr)
    r.1.length = data.length ∧
    (∀ j, r.1[j]? = if base ≤ j ∧ j < base + n then
        data[j]?.map (fun pg => copy_page PS pg (buf.drop (PS * (j - base)))) else data[j]?) ∧
    r.2 = tr ++ (List.range n).map (fun i => ((base + i : Nat) : Int)) := by
  induction n with
  | zero =>
    refine ⟨rfl, fun j => ?_, by simp⟩
    have : ¬ (base ≤ j ∧ j < base) := by omega
    simp [this]
  | succ n ih =>
    have ih := ih (by omega)
    simp only [List.range_succ, List.foldl_append, List.foldl_cons, List.foldl_nil] at ih ⊢
    generalize List.foldl (write_body PS (base : Int) buf) (data, tr) (List.range n) = st at ih ⊢
    obtain ⟨h1, h2, h3⟩ := ih
    have hget := h2 (base + n)
    simp only [Nat.lt_irrefl, and_false, if_false] at hget
    obtain ⟨pg, hpg⟩ : ∃ pg, data[base + n]? = some pg := by
      have : base + n < data.length := by omega
      exact ⟨data[base + n], by simp [this]⟩
    rw [hpg] at hget
    rw [write_body_in_range PS base buf st n pg hget (by omega)]
    refine ⟨by simp [h1], ?_, by simp [h3]⟩
    intro j
    simp only [List.getElem?_set]
    by_cases hj : base + n = j
    · subst hj
      simp [h1, hpg]
      omega
    · simp only [hj, if_false, h2 j]
      by_cases hj2 : base ≤ j ∧ j < base + n
      · have : base ≤ j ∧ j < base + (n + 1) := by omega
        simp [hj2, this]
      · have : ¬ (base ≤ j ∧ j < base + (n + 1)) := by omega
        simp [hj2, this]



/-- Length of the bytes of `n` pages of `PS` bytes each. -/
theorem pages_bytes_length (PS : Nat) (data : List Page) (base n : Nat)
    (hn : base + n ≤ data.length) (hpg : ∀ j, base ≤ j → j < base + n → ∀ pg, data[j]? = some pg → pg.length = PS) :
    (pages_bytes data base n).length = n * PS := by
  induction n with
  | zero => simp [pages_bytes]
  | succ n ih =>
    have ih := ih (by omega) (fun j h1 h2 => hpg j h1 (by omega))
    have hlt : base + n < data.length := by omega
    have := hpg (base + n) (by omega) (by omega) data[base + n] (by simp [hlt])
    simp [pages_bytes, ih, List.getD, hlt, this]
    ring

/-- Effect of `n` iterations of the read loop on a range inside the page table:
the buffer starts with the bytes of pages `base .. base + n - 1` and continues as before. -/
theorem read_loop_spec (PS : Nat) (base : Nat) (buf : List u8) (data : List Page)
    (tr : List Int) (n : Nat) (hn : base + n ≤ data.length) (hlen : data.length < 2 ^ 31)
    (hpg : ∀ j, base ≤ j → j < base + n → ∀ pg, data[j]? = some pg → pg.length = PS) :
    (List.range n).foldl (read_body PS (base : Int) data) (buf, tr) =
      (pages_bytes data base n ++ buf.drop (n * PS),
        tr ++ (List.range n).map (fun i => ((base + i : Nat) : Int))) := by
  induction n with
  | zero => simp [pages_bytes]
  | succ n ih =>
    have ih := ih (by omega) (fun j h1 h2 => hpg j h1 (by omega))
    have hL := pages_bytes_length PS data base n (by omega) (fun j h1 h2 => hpg j h1 (by omega))
    simp only [List.range_succ, List.foldl_append, List.foldl_cons, List.foldl_nil, ih]
    have hlt : base + n < data.length := by omega
    have hp := hpg (base + n) (by omega) (by omega) data[base + n] (by simp [hlt])
    have hk : to_int ((base : Int) + (n : Nat)) = ((base + n : Nat) : Int) := by
      rw [to_int_of_lt] <;> push_cast <;> omega
    have hnn : (0 : Int) ≤ ((base + n : Nat) : Int) := Int.ofNat_nonneg _
    have hget : data[base + n]? = some data[base + n] := by simp [hlt]
    have hmul : PS * n = (pages_bytes data base n).length := by rw [hL, Nat.mul_comm]
    simp only [read_body, hk, Int.toNat_ofNat, hnn, if_true, hget, copy_page, pages_bytes,
      List.getD, Option.getD_some]
    rw [hmul, List.take_left, List.drop_left, List.take_of_length_le (by omega), List.drop_drop]
    have e1 : (data.get? (base + n)).getD [] = data[base + n] := by
      rw [List.get?_eq_getElem?, hget]; rfl
    have e2 : (n + 1) * PS = n * PS + PS := by ring
    rw [e1, e2, List.map_append, List.append_assoc, List.append_assoc]
    rfl

/-- An aligned request whose page range lies within the device passes both checks of
`mem_swap_transfer`, and `page` and `npage` are the untruncated quotients. -/
theorem transfer_in_range (PS : Nat) (npages : Int) (dev : mem_swap_device)
    (sector nsect : Nat) (buf : List u8) (write : Int)
    (hnp : npages < 2 ^ 31)
    (hs : sector % SECTORS_PER_PAGE PS = 0) (hn : nsect % SECTORS_PER_PAGE PS = 0)
    (hr : ((sector / SECTORS_PER_PAGE PS + nsect / SECTORS_PER_PAGE PS : Nat) : Int) ≤ npages) :
    mem_swap_transfer PS npages dev sector nsect buf write =
      if write ≠ 0 then
        { report := .copied,
          data := ((List.range (nsect / SECTORS_PER_PAGE PS)).foldl
            (write_body PS ((sector / SECTORS_PER_PAGE PS : Nat) : Int) buf) (dev.data, [])).1,
          buffer := buf,
          locks := [.spin_lock .tx_lock, .spin_unlock .tx_lock],
          derefs := ((List.range (nsect / SECTORS_PER_PAGE PS)).foldl
            (write_body PS ((sector / SECTORS_PER_PAGE PS : Nat) : Int) buf) (dev.data, [])).2 }
      else
        { report := .copied,
          data := dev.data,
          buffer := ((List.range (nsect / SECTORS_PER_PAGE PS)).foldl
            (read_body PS ((sector / SECTORS_PER_PAGE PS : Nat) : Int) dev.data) (buf, [])).1,
          locks := [.spin_lock .rx_lock, .spin_unlock .rx_lock],
          derefs := ((List.range (nsect / SECTORS_PER_PAGE PS)).foldl
            (read_body PS ((sector / SECTORS_PER_PAGE PS : Nat) : Int) dev.data) (buf, [])).2 } := by
  generalize hp : sector / SECTORS_PER_PAGE PS = p at hr
  generalize hq : nsect / SECTORS_PER_PAGE PS = q at hr
  have e1 : to_int ((p : Nat) : Int) = p := by rw [to_int_of_lt] <;> push_cast at hr ⊢ <;> omega
  have e2 : to_int ((q : Nat) : Int) = q := by rw [to_int_of_lt] <;> push_cast at hr ⊢ <;> omega
  have e3 : to_int ((p : Int) + q) = p + q := by rw [to_int_of_lt] <;> push_cast at hr ⊢ <;> omega
  have e4 : to_int ((p : Int) + q - 1) = p + q - 1 := by
    rw [to_int_of_lt] <;> push_cast at hr ⊢ <;> omega
  have e5 : ¬ ((p : Int) + q - 1 ≥ npages) := by push_cast at hr; omega
  unfold mem_swap_transfer
  simp only [hs, hn, ne_eq, not_true_eq_false, or_self, if_false, hp, hq, e1, e2, e3, e4, e5,
    Int.toNat_ofNat]

/-- C8. Misalignment rejection: when `sector` or `nsect` is not a multiple of
`SECTORS_PER_PAGE`, `mem_swap_transfer` in either direction takes the "incorrect align" exit,
leaves the page table and the caller's buffer as they were, takes neither `rx_lock` nor
`tx_lock`, and dereferences no page. -/
theorem misaligned_rejected (PS : Nat) (npages : Int) (dev : mem_swap_device)
    (sector nsect : Nat) (buffer : List u8) (write : Int)
    (h : sector % SECTORS_PER_PAGE PS ≠ 0 ∨ nsect % SECTORS_PER_PAGE PS ≠ 0) :
    (mem_swap_transfer PS npages dev sector nsect buffer write).report = .incorrect_align ∧
    (mem_swap_transfer PS npages dev sector nsect buffer write).data = dev.data ∧
    (mem_swap_transfer PS npages dev sector nsect buffer write).buffer = buffer ∧
    (mem_swap_transfer PS npages dev sector nsect buffer write).locks = [] ∧
    (mem_swap_transfer PS npages dev sector nsect buffer write).derefs = [] := by
  unfold mem_swap_transfer
  rw [if_pos h]
  exact ⟨rfl, rfl, rfl, rfl, rfl⟩

/-- Witness for C8: four pages of 4096 bytes, a write of 8 sectors starting at sector 1. -/
theorem misaligned_rejected_witness :
    (mem_swap_transfer 4096 4 { size := 4 * 4096, data := List.replicate 4 (List.replicate 4096 0) }
      1 8 (List.replicate 4096 0xAA) 1).report = .incorrect_align ∧
    (mem_swap_transfer 4096 4 { size := 4 * 4096, data := List.replicate 4 (List.replicate 4096 0) }
      1 8 (List.replicate 4096 0xAA) 1).data = List.replicate 4 (List.replicate 4096 0) ∧
    (mem_swap_transfer 4096 4 { size := 4 * 4096, data := List.replicate 4 (List.replicate 4096 0) }
      1 8 (List.replicate 4096 0xAA) 1).buffer = List.replicate 4096 0xAA ∧
    (mem_swap_transfer 4096 4 { size := 4 * 4096, data := List.replicate 4 (List.replicate 4096 0) }
      1 8 (List.replicate 4096 0xAA) 1).locks = [] ∧
    (mem_swap_transfer 4096 4 { size := 4 * 4096, data := List.replicate 4 (List.replicate 4096 0) }
      1 8 (List.replicate 4096 0xAA) 1).derefs = [] :=
  misaligned_rejected 4096 4 _ 1 8 _ 1 (by decide)

/-- What an accepted write does to the page table: page `base + i` receives buffer bytes
`[i * PAGE_SIZE, (i + 1) * PAGE_SIZE)` for every `i < n`, every other page and the buffer stay
as they were. -/
theorem transfer_write_data (PS : Nat) (npages : Int) (dev : mem_swap_device)
    (sector nsect : Nat) (buffer : List u8) (write : Int) (hw : write ≠ 0)
    (hnp : npages < 2 ^ 31) (hlen : (dev.data.length : Int) = npages)
    (hpages : ∀ pg ∈ dev.data, pg.length = PS)
    (hs : sector % SECTORS_PER_PAGE PS = 0) (hn : nsect % SECTORS_PER_PAGE PS = 0)
    (hr : ((sector / SECTORS_PER_PAGE PS + nsect / SECTORS_PER_PAGE PS : Nat) : Int) ≤ npages) :
    (mem_swap_transfer PS npages dev sector nsect buffer write).report = .copied ∧
    (mem_swap_transfer PS npages dev sector nsect buffer write).buffer = buffer ∧
    (mem_swap_transfer PS npages dev sector nsect buffer write).locks =
      [.spin_lock .tx_lock, .spin_unlock .tx_lock] ∧
    (mem_swap_transfer PS npages dev sector nsect buffer write).data.length
      = dev.data.length ∧
    (∀ i, i < nsect / SECTORS_PER_PAGE PS →
      (mem_swap_transfer PS npages dev sector nsect buffer write).data[
          sector / SECTORS_PER_PAGE PS + i]?
        = some ((buffer.drop (i * PS)).take PS)) ∧
    (∀ j, j < sector / SECTORS_PER_PAGE PS ∨
        sector / SECTORS_PER_PAGE PS + nsect / SECTORS_PER_PAGE PS ≤ j →
      (mem_swap_transfer PS npages dev sector nsect buffer write).data[j]? = dev.data[j]?) := by
  have hle : sector / SECTORS_PER_PAGE PS + nsect / SECTORS_PER_PAGE PS ≤ dev.data.length := by
    have := hlen ▸ hr
    exact_mod_cast this
  have hlt : dev.data.length < 2 ^ 31 := by
    have : (dev.data.length : Int) < 2 ^ 31 := hlen ▸ hnp
    exact_mod_cast this
  rw [transfer_in_range PS npages dev sector nsect buffer write hnp hs hn hr, if_pos hw]
  obtain ⟨h1, h2, -⟩ := write_loop_spec PS (sector / SECTORS_PER_PAGE PS) buffer dev.data []
    (nsect / SECTORS_PER_PAGE PS) hle hlt
  refine ⟨rfl, rfl, rfl, h1, ?_, ?_⟩
  · intro i hi
    have hin : sector / SECTORS_PER_PAGE PS + i < dev.data.length := by omega
    have hget : dev.data[sector / SECTORS_PER_PAGE PS + i]?
        = some dev.data[sector / SECTORS_PER_PAGE PS + i] := by simp [hin]
    have hL := hpages _ (List.getElem?_mem hget)
    simp only [h2, hget]
    rw [if_pos ⟨by omega, by omega⟩]
    simp only [Option.map_some', copy_page, Nat.add_sub_cancel_left, Nat.mul_comm PS i]
    rw [List.drop_of_length_le (le_of_eq hL), List.append_nil]
  · intro j hj
    simp only [h2]
    rw [if_neg (by omega)]

/-- C10. Transfer frame: for an aligned request whose page range `[base, base + n)` lies
within the device, a write copies buffer bytes `[i * PAGE_SIZE, (i + 1) * PAGE_SIZE)` into page
`base + i` for every `i < n`, leaves every other page and the buffer as they were, and holds
only `tx_lock`; a read leaves the page table as it was, keeps the buffer's length and its
bytes from `n * PAGE_SIZE` on, and holds only `rx_lock`. -/
theorem transfer_frame (PS : Nat) (npages : Int) (dev : mem_swap_device)
    (sector nsect : Nat) (buffer : List u8)
    (hnp : npages < 2 ^ 31) (hlen : (dev.data.length : Int) = npages)
    (hpages : ∀ pg ∈ dev.data, pg.length = PS)
    (hs : sector % SECTORS_PER_PAGE PS = 0) (hn : nsect % SECTORS_PER_PAGE PS = 0)
    (hr : ((sector / SECTORS_PER_PAGE PS + nsect / SECTORS_PER_PAGE PS : Nat) : Int) ≤ npages)
    (hbuf : nsect / SECTORS_PER_PAGE PS * PS ≤ buffer.length) :
    (∀ write : Int, write ≠ 0 →
      (mem_swap_transfer PS npages dev sector nsect buffer write).report = .copied ∧
      (mem_swap_transfer PS npages dev sector nsect buffer write).buffer = buffer ∧
      (mem_swap_transfer PS npages dev sector nsect buffer write).locks =
        [.spin_lock .tx_lock, .spin_unlock .tx_lock] ∧
      (mem_swap_transfer PS npages dev sector nsect buffer write).data.length
        = dev.data.length ∧
      (∀ i, i < nsect / SECTORS_PER_PAGE PS →
        (mem_swap_transfer PS npages dev sector nsect buffer write).data[
            sector / SECTORS_PER_PAGE PS + i]?
          = some ((buffer.drop (i * PS)).take PS)) ∧
      (∀ j, j < sector / SECTORS_PER_PAGE PS ∨
          sector / SECTORS_PER_PAGE PS + nsect / SECTORS_PER_PAGE PS ≤ j →
        (mem_swap_transfer PS npages dev sector nsect buffer write).data[j]? = dev.data[j]?)) ∧
    ((mem_swap_transfer PS npages dev sector nsect buffer 0).report = .copied ∧
      (mem_swap_transfer PS npages dev sector nsect buffer 0).data = dev.data ∧
      (mem_swap_transfer PS npages dev sector nsect buffer 0).locks =
        [.spin_lock .rx_lock, .spin_unlock .rx_lock] ∧
      (mem_swap_transfer PS npages dev sector nsect buffer 0).buffer.length = buffer.length ∧
      (mem_swap_transfer PS npages dev sector nsect buffer 0).buffer.drop
          (nsect / SECTORS_PER_PAGE PS * PS)
        = buffer.drop (nsect / SECTORS_PER_PAGE PS * PS)) := by
  have hle : sector / SECTORS_PER_PAGE PS + nsect / SECTORS_PER_PAGE PS ≤ dev.data.length := by
    have := hlen ▸ hr
    exact_mod_cast this
  have hlt : dev.data.length < 2 ^ 31 := by
    have : (dev.data.length : Int) < 2 ^ 31 := hlen ▸ hnp
    exact_mod_cast this
  have hpg : ∀ (j : Nat) (pg : Page), dev.data[j]? = some pg → pg.length = PS := by
    intro j pg h
    exact hpages pg (List.getElem?_mem h)
  constructor
  · intro write hw
    exact transfer_write_data PS npages dev sector nsect buffer write hw hnp hlen hpages hs hn hr
  · rw [transfer_in_range PS npages dev sector nsect buffer 0 hnp hs hn hr, if_neg (by simp)]
    have h := read_loop_spec PS (sector / SECTORS_PER_PAGE PS) buffer dev.data []
      (nsect / SECTORS_PER_PAGE PS) hle hlt (fun j _ _ pg hj => hpg j pg hj)
    have hL := pages_bytes_length PS dev.data (sector / SECTORS_PER_PAGE PS)
      (nsect / SECTORS_PER_PAGE PS) hle (fun j _ _ pg hj => hpg j pg hj)
    rw [h]
    refine ⟨rfl, rfl, rfl, ?_, ?_⟩
    · simp only [List.length_append, hL, List.length_drop]
      omega
    · rw [← hL, List.drop_left]

/-- What an accepted read puts into the buffer: the bytes of pages `base .. base + n - 1`,
followed by the rest of the buffer as it was. -/
theorem transfer_read_buffer (PS : Nat) (npages : Int) (dev : mem_swap_device)
    (sector nsect : Nat) (buffer : List u8)
    (hnp : npages < 2 ^ 31) (hlen : (dev.data.length : Int) = npages)
    (hpages : ∀ pg ∈ dev.data, pg.length = PS)
    (hs : sector % SECTORS_PER_PAGE PS = 0) (hn : nsect % SECTORS_PER_PAGE PS = 0)
    (hr : ((sector / SECTORS_PER_PAGE PS + nsect / SECTORS_PER_PAGE PS : Nat) : Int) ≤ npages) :
    (mem_swap_transfer PS npages dev sector nsect buffer 0).report = .copied ∧
    (mem_swap_transfer PS npages dev sector nsect buffer 0).buffer =
      pages_bytes dev.data (sector / SECTORS_PER_PAGE PS) (nsect / SECTORS_PER_PAGE PS) ++
        buffer.drop (nsect / SECTORS_PER_PAGE PS * PS) := by
  have hle : sector / SECTORS_PER_PAGE PS + nsect / SECTORS_PER_PAGE PS ≤ dev.data.length := by
    have := hlen ▸ hr
    exact_mod_cast this
  have hlt : dev.data.length < 2 ^ 31 := by
    have : (dev.data.length : Int) < 2 ^ 31 := hlen ▸ hnp
    exact_mod_cast this
  rw [transfer_in_range PS npages dev sector nsect buffer 0 hnp hs hn hr, if_neg (by simp)]
  rw [read_loop_spec PS (sector / SECTORS_PER_PAGE PS) buffer dev.data []
      (nsect / SECTORS_PER_PAGE PS) hle hlt
      (fun j _ _ pg hj => hpages pg (List.getElem?_mem hj))]
  exact ⟨rfl, rfl⟩

/-- Pages that hold consecutive chunks of `B` concatenate to a prefix of `B`. -/
theorem pages_bytes_of_chunks (PS : Nat) (data : List Page) (base n : Nat) (B : List u8)
    (h : ∀ i, i < n → data[base + i]? = some ((B.drop (i * PS)).take PS)) :
    pages_bytes data base n = B.take (n * PS) := by
  induction n with
  | zero => simp [pages_bytes]
  | succ n ih =>
    have e : (n + 1) * PS = n * PS + PS := by ring
    rw [pages_bytes, ih (fun i hi => h i (by omega)), e, List.take_add, List.getD,
      List.get?_eq_getElem?, h n (by omega)]
    rfl

/-- Zeroed pages concatenate to zeros. -/
theorem pages_bytes_zero (PS : Nat) (data : List Page) (base n : Nat)
    (h : ∀ i, i < n → data[base + i]? = some (List.replicate PS 0)) :
    pages_bytes data base n = List.replicate (n * PS) 0 := by
  induction n with
  | zero => simp [pages_bytes]
  | succ n ih =>
    have e : (n + 1) * PS = n * PS + PS := by ring
    rw [pages_bytes, ih (fun i hi => h i (by omega)), e, List.getD,
      List.get?_eq_getElem?, h n (by omega), List.replicate_add]
    rfl

/-- Sector arithmetic: `nsect` sectors of 512 bytes are `nsect / SECTORS_PER_PAGE` pages. -/
theorem sectors_bytes (PS nsect : Nat) (hPS : PS % 512 = 0)
    (hn : nsect % SECTORS_PER_PAGE PS = 0) :
    nsect / SECTORS_PER_PAGE PS * PS = nsect * 512 := by
  unfold SECTORS_PER_PAGE KERNEL_SECTOR_SIZE at *
  obtain ⟨q, rfl⟩ : ∃ q, PS = 512 * q := ⟨PS / 512, by omega⟩
  rw [Nat.mul_div_cancel_left q (by norm_num)] at hn ⊢
  have h2 := Nat.div_add_mod nsect q
  rw [hn, Nat.add_zero] at h2
  calc nsect / q * (512 * q) = (q * (nsect / q)) * 512 := by ring
    _ = nsect * 512 := by rw [h2]

/-- C1. Round trip: on a device of `npages` pages of `PAGE_SIZE` bytes, for an aligned request
whose page range lies within the device, a write of buffer `B` followed by a read of the same
range into a buffer `B0` is accepted both times and leaves the first `nsect * 512` bytes of the
read buffer equal to those of `B`. -/
theorem write_read_round_trip (PS : Nat) (npages : Int) (dev : mem_swap_device)
    (sector nsect : Nat) (B B0 : List u8)
    (hPS : PS % 512 = 0)
    (hnp : npages < 2 ^ 31) (hlen : (dev.data.length : Int) = npages)
    (hpages : ∀ pg ∈ dev.data, pg.length = PS)
    (hs : sector % SECTORS_PER_PAGE PS = 0) (hn : nsect % SECTORS_PER_PAGE PS = 0)
    (hr : ((sector / SECTORS_PER_PAGE PS + nsect / SECTORS_PER_PAGE PS : Nat) : Int) ≤ npages)
    (hB : nsect * 512 ≤ B.length) (hB0 : nsect * 512 ≤ B0.length) :
    (mem_swap_transfer PS npages dev sector nsect B 1).report = .copied ∧
    (mem_swap_transfer PS npages
      { dev with data := (mem_swap_transfer PS npages dev sector nsect B 1).data }
      sector nsect B0 0).report = .copied ∧
    (mem_swap_transfer PS npages
      { dev with data := (mem_swap_transfer PS npages dev sector nsect B 1).data }
      sector nsect B0 0).buffer.length = B0.length ∧
    (mem_swap_transfer PS npages
      { dev with data := (mem_swap_transfer PS npages dev sector nsect B 1).data }
      sector nsect B0 0).buffer.take (nsect * 512) = B.take (nsect * 512) := by
  have hbytes := sectors_bytes PS nsect hPS hn
  obtain ⟨w1, -, -, w4, w5, w6⟩ := transfer_write_data PS npages dev sector nsect B 1
    (by decide) hnp hlen hpages hs hn hr
  generalize (mem_swap_transfer PS npages dev sector nsect B 1).data = wd at w4 w5 w6 ⊢
  have hwpages : ∀ pg ∈ wd, pg.length = PS := by
    intro pg hmem
    obtain ⟨j, hj⟩ := List.mem_iff_getElem?.1 hmem
    by_cases hin : sector / SECTORS_PER_PAGE PS ≤ j ∧
        j < sector / SECTORS_PER_PAGE PS + nsect / SECTORS_PER_PAGE PS
    · have h := w5 (j - sector / SECTORS_PER_PAGE PS) (by omega)
      rw [Nat.add_sub_cancel' hin.1, hj] at h
      have hpg := Option.some.inj h
      rw [hpg, List.length_take, List.length_drop]
      have : (j - sector / SECTORS_PER_PAGE PS + 1) * PS ≤ nsect / SECTORS_PER_PAGE PS * PS :=
        Nat.mul_le_mul_right PS (by omega)
      rw [Nat.add_mul] at this
      omega
    · have h := w6 j (by omega)
      rw [hj] at h
      exact hpages pg (List.getElem?_mem h.symm)
  have hr2 := transfer_read_buffer PS npages { dev with data := wd } sector nsect B0 hnp
    (by simpa [w4] using hlen) hwpages hs hn hr
  obtain ⟨r1, r2⟩ := hr2
  have hch := pages_bytes_of_chunks PS wd (sector / SECTORS_PER_PAGE PS)
    (nsect / SECTORS_PER_PAGE PS) B w5
  refine ⟨w1, r1, ?_, ?_⟩
  · rw [r2, hch, List.length_append, List.length_take, List.length_drop]
    omega
  · rw [r2, hch, hbytes]
    exact List.take_left' (by rw [List.length_take]; omega)

/-- Zeroing a whole fresh block gives a zero page. -/
theorem memset_block (PS : Nat) (f : Nat → u8) :
    memset ((List.range PS).map f) 0 PS = List.replicate PS 0 := by
  unfold memset
  rw [List.drop_of_length_le (by simp), List.append_nil]

/-- When the allocation loop runs to its end, it has appended one zeroed page per iteration. -/
theorem alloc_loop_success (PS : Nat) (env : InitEnv) (todo : Nat) :
    ∀ (i : Nat) (m m1 : Kmem), alloc_loop PS env todo i m = (m1, true) →
      m1.pages = m.pages ++ List.replicate todo (List.replicate PS 0) := by
  induction todo with
  | zero =>
    intro i m m1 h
    simp only [alloc_loop, Prod.mk.injEq, and_true] at h
    simp [h]
  | succ n ih =>
    intro i m m1 h
    unfold alloc_loop at h
    by_cases hk : env.kmalloc_ok i = true
    · rw [if_pos hk] at h
      have := ih _ _ _ h
      rw [this, memset_block, List.replicate_succ]
      simp
    · rw [if_neg hk] at h
      simp at h

/-- The field `device.size` is set before anything can fail. -/
theorem init_size (PS : Nat) (npages : Int) (env : InitEnv) :
    (mem_swap_init PS npages env).device.size = to_ulong (npages * PS) := by
  unfold mem_swap_init
  simp only []
  split
  · rfl
  · split
    · rfl
    · split <;> rfl

/-- A successful `mem_swap_init` leaves `npages` pages of `PAGE_SIZE` zero bytes. -/
theorem init_success_data (PS : Nat) (npages : Int) (env : InitEnv)
    (h : (mem_swap_init PS npages env).ret = 0) :
    (mem_swap_init PS npages env).device.data
      = List.replicate npages.toNat (List.replicate PS 0) := by
  unfold mem_swap_init at h ⊢
  simp only [] at h ⊢
  split
  · rename_i hv
    rw [if_pos hv] at h
    simp [ENOMEM] at h
  · rename_i hv
    rw [if_neg hv] at h
    split
    · rename_i m hm
      rw [hm] at h
      simp [ENOMEM] at h
    · rename_i m hm
      rw [hm] at h
      have hp := alloc_loop_success PS env npages.toNat 0 _ m hm
      split
      · simp [hp]
      · rename_i hreg
        simp only [] at h
        rw [if_neg hreg] at h
        simp [ENOMEM] at h

/-- C9. Zero initialisation: after a successful `mem_swap_init` with `npages` pages, and before
any write, an aligned read whose page range lies within the device is accepted, keeps the
buffer's length and fills its first `nsect * 512` bytes with zeros. -/
theorem fresh_device_reads_zero (PS : Nat) (npages : Int) (env : InitEnv)
    (sector nsect : Nat) (buffer : List u8)
    (hPS : PS % 512 = 0) (hnp : npages < 2 ^ 31)
    (hok : (mem_swap_init PS npages env).ret = 0)
    (hs : sector % SECTORS_PER_PAGE PS = 0) (hn : nsect % SECTORS_PER_PAGE PS = 0)
    (hr : ((sector / SECTORS_PER_PAGE PS + nsect / SECTORS_PER_PAGE PS : Nat) : Int) ≤ npages)
    (hbuf : nsect * 512 ≤ buffer.length) :
    (mem_swap_transfer PS npages (mem_swap_init PS npages env).device
      sector nsect buffer 0).report = .copied ∧
    (mem_swap_transfer PS npages (mem_swap_init PS npages env).device
      sector nsect buffer 0).buffer.length = buffer.length ∧
    (mem_swap_transfer PS npages (mem_swap_init PS npages env).device
      sector nsect buffer 0).buffer.take (nsect * 512) = List.replicate (nsect * 512) 0 := by
  have hbytes := sectors_bytes PS nsect hPS hn
  have hdata := init_success_data PS npages env hok
  generalize (mem_swap_init PS npages env).device = dev at hdata ⊢
  have h0 : 0 ≤ npages := le_trans (Int.ofNat_nonneg _) hr
  have hlen : (dev.data.length : Int) = npages := by
    rw [hdata, List.length_replicate, Int.toNat_of_nonneg h0]
  have hpages : ∀ pg ∈ dev.data, pg.length = PS := by
    intro pg hpg
    rw [hdata] at hpg
    rw [List.eq_of_mem_replicate hpg, List.length_replicate]
  have hle : sector / SECTORS_PER_PAGE PS + nsect / SECTORS_PER_PAGE PS ≤ npages.toNat := by
    omega
  obtain ⟨r1, r2⟩ := transfer_read_buffer PS npages dev sector nsect buffer hnp hlen hpages
    hs hn hr
  have hz := pages_bytes_zero PS dev.data (sector / SECTORS_PER_PAGE PS)
    (nsect / SECTORS_PER_PAGE PS) (fun i hi => by
      rw [hdata, List.getElem?_replicate, if_pos (by omega)])
  refine ⟨r1, ?_, ?_⟩
  · rw [r2, hz, List.length_append, List.length_replicate, List.length_drop]
    omega
  · rw [r2, hz, hbytes]
    exact List.take_left' (List.length_replicate _ _)

/-- The rollback branch of the allocation loop: when the first failing `kmalloc` is the one for
index `k`, the loop returns through `return -ENOMEM` with every page allocated before still
live; the rollback has only called `kfree(NULL)`, `k - 1` times. -/
theorem alloc_loop_failure (PS : Nat) (env : InitEnv) (k : Nat)
    (hfail : env.kmalloc_ok k = false) (hprev : ∀ j, j < k → env.kmalloc_ok j = true)
    (todo : Nat) :
    ∀ (i : Nat) (m : Kmem), m.ptrs.length = i → i ≤ k → k < i + todo →
      (alloc_loop PS env todo i m).2 = false ∧
      (alloc_loop PS env todo i m).1.live = m.live ++ List.range' i (k - i) ∧
      (alloc_loop PS env todo i m).1.kfree_null = m.kfree_null + (k - 1) ∧
      (alloc_loop PS env todo i m).1.bad_free = m.bad_free := by
  induction todo with
  | zero => intro i m _ h1 h2; omega
  | succ n ih =>
    intro i m hlen h1 h2
    unfold alloc_loop
    by_cases hik : i = k
    · subst hik
      rw [if_neg (by simp [hfail])]
      have hget : (m.ptrs ++ [none]).getD i none = none := by
        rw [List.getD, List.get?_eq_getElem?, ← hlen]
        simp
      simp only [hget]
      have hfold : ∀ (c : Nat) (a : Kmem),
          (List.foldl (fun acc (_ : Nat) => kfree acc none) a (List.range c)).live = a.live ∧
          (List.foldl (fun acc (_ : Nat) => kfree acc none) a (List.range c)).kfree_null
            = a.kfree_null + c ∧
          (List.foldl (fun acc (_ : Nat) => kfree acc none) a (List.range c)).bad_free
            = a.bad_free := by
        intro c
        induction c with
        | zero => intro a; simp
        | succ c ihc =>
          intro a
          rw [List.range_succ, List.foldl_append]
          simp only [List.foldl_cons, List.foldl_nil]
          obtain ⟨e1, e2, e3⟩ := ihc a
          generalize List.foldl (fun acc (_ : Nat) => kfree acc none) a (List.range c) = st
            at e1 e2 e3 ⊢
          exact ⟨e1, by simp only [kfree, e2]; omega, e3⟩
      obtain ⟨e1, e2, e3⟩ := hfold ((i : Int) - 1).toNat { m with ptrs := m.ptrs ++ [none] }
      refine ⟨by simp, ?_, ?_, ?_⟩
      · simp only [vfree, e1, Nat.sub_self, List.range'_zero, List.append_nil]
      · simp only [vfree, e2]
        omega
      · simp only [vfree, e3]
    · have hlt : i < k := by omega
      rw [if_pos (hprev i hlt)]
      obtain ⟨e1, e2, e3, e4⟩ := ih (i + 1)
        { m with ptrs := m.ptrs ++ [some i],
                 pages := m.pages ++ [memset ((List.range PS).map (env.junk i)) 0 PS],
                 live := m.live ++ [i] }
        (by simp [hlen]) (by omega) (by omega)
      refine ⟨e1, ?_, e3, e4⟩
      rw [e2]
      have : k - i = (k - (i + 1)) + 1 := by omega
      rw [this, List.range'_succ]
      simp

/-- The constant part of the geometry: `mem_swap_getgeo` returns 0 and stores 4 heads,
16 sectors and start 0, whatever the device. -/
theorem getgeo_fields (PS cyl_bits : Nat) (dev : mem_swap_device) :
    (mem_swap_getgeo PS cyl_bits dev).1 = 0 ∧
    (mem_swap_getgeo PS cyl_bits dev).2.heads = 4 ∧
    (mem_swap_getgeo PS cyl_bits dev).2.sectors = 16 ∧
    (mem_swap_getgeo PS cyl_bits dev).2.start = 0 := by
  refine ⟨rfl, ?_, ?_, rfl⟩ <;> simp [mem_swap_getgeo]

/-- C7, the code at the failing input. With the default `npages = 2048 * 1024` and
`PAGE_SIZE = 4096`, `mem_swap_init` sets `device.size` to the byte count `2 ^ 33`, and
`mem_swap_getgeo` multiplies it by `SECTORS_PER_PAGE` again: the cylinder count is
`2 ^ 30` reduced to the width of the field, which is not 262144 for any width, and is 0
for the 16 bits of `unsigned short`. -/
theorem getgeo_default_wrong (env : InitEnv) (cyl_bits : Nat) :
    (mem_swap_init 4096 (2048 * 1024) env).device.size = 2 ^ 33 ∧
    (mem_swap_getgeo 4096 cyl_bits (mem_swap_init 4096 (2048 * 1024) env).device).2.cylinders
      = 2 ^ 30 % 2 ^ cyl_bits ∧
    (mem_swap_getgeo 4096 cyl_bits (mem_swap_init 4096 (2048 * 1024) env).device).2.cylinders
      ≠ 262144 ∧
    (mem_swap_getgeo 4096 16 (mem_swap_init 4096 (2048 * 1024) env).device).2.cylinders = 0 := by
  have hsize : (mem_swap_init 4096 (2048 * 1024) env).device.size = 2 ^ 33 := by
    rw [init_size]; decide
  have hshift : Int.shiftRight (land_long
      (to_long (to_ulong (((2 ^ 33 : Nat) * (4096 / KERNEL_SECTOR_SIZE) : Nat) : Int)))
      (Int.not 0x3f)) 6 = ((2 ^ 30 : Nat) : Int) := by decide
  have hcyl : ∀ c : Nat,
      (mem_swap_getgeo 4096 c (mem_swap_init 4096 (2048 * 1024) env).device).2.cylinders
        = 2 ^ 30 % 2 ^ c := by
    intro c
    unfold mem_swap_getgeo
    simp only [hsize]
    rw [hshift]
    have : ((2 ^ 30 : Nat) : Int) % (2 : Int) ^ c = ((2 ^ 30 % 2 ^ c : Nat) : Int) := by
      push_cast; rfl
    rw [this, Int.toNat_ofNat]
  refine ⟨hsize, hcyl cyl_bits, ?_, ?_⟩
  · rw [hcyl]
    by_cases hc : cyl_bits ≤ 30
    · have : 2 ^ 30 % 2 ^ cyl_bits = 0 :=
        Nat.mod_eq_zero_of_dvd (Nat.pow_dvd_pow 2 hc)
      rw [this]; decide
    · have hlt : 2 ^ 30 < 2 ^ cyl_bits := Nat.pow_lt_pow_right (by decide) (by omega)
      rw [Nat.mod_eq_of_lt hlt]; decide
  · rw [hcyl]; decide

/-- C5, the code at the failing input. With a non-`REQ_TYPE_FS` request at the head of the
queue, the loop of `mem_swap_request` never exits: after any number `fuel` of evaluations of
its condition it is still in the loop with the same `req`, it has completed that request
`fuel` times with `-EIO`, and the request behind it is still in the queue, untransferred. -/
theorem control_request_never_leaves (fuel : Nat) :
    mem_swap_request 4096 4 fuel scenario_device [control_request, aligned_write] =
      ({ req := some control_request, queue := [aligned_write], device := scenario_device,
         completions := List.replicate fuel { tag := 7, error := - EIO }, transfers := [] },
       false) := by
  have h : ∀ (n : Nat) (cs : List Completion),
      request_loop 4096 4 n
        { req := some control_request, queue := [aligned_write], device := scenario_device,
          completions := cs, transfers := [] } =
      ({ req := some control_request, queue := [aligned_write], device := scenario_device,
         completions := cs ++ List.replicate n { tag := 7, error := - EIO }, transfers := [] },
       false) := by
    intro n
    induction n with
    | zero => intro cs; simp [request_loop]
    | succ n ih =>
      intro cs
      have hstep : request_step 4096 4
          { req := some control_request, queue := [aligned_write], device := scenario_device,
            completions := cs, transfers := [] } =
          some { req := some control_request, queue := [aligned_write],
                 device := scenario_device,
                 completions := cs ++ [{ tag := 7, error := - EIO }], transfers := [] } := by
        rfl
      rw [request_loop, hstep]
      simp only []
      rw [ih, List.replicate_succ, List.append_assoc]
      rfl
  have := h fuel []
  simpa [mem_swap_request, blk_fetch_request] using this

/-- Every page of the scenario device has 4096 bytes. -/
theorem scenario_device_pages : ∀ pg ∈ scenario_device.data, pg.length = 4096 := by
  intro pg h
  rw [scenario_device] at h
  rw [List.eq_of_mem_replicate h, List.length_replicate]

/-- Witness for C1: the scenario of the specification, four pages of 4096 bytes, sectors
`[0, 8)`, a buffer of `0xAA` written and read back. -/
theorem write_read_round_trip_witness :
    (mem_swap_transfer 4096 4
      { scenario_device with
        data := (mem_swap_transfer 4096 4 scenario_device 0 8 (List.replicate 4096 0xAA) 1).data }
      0 8 (List.replicate 4096 0) 0).buffer.take (8 * 512)
      = (List.replicate 4096 0xAA).take (8 * 512) :=
  (write_read_round_trip 4096 4 scenario_device 0 8 (List.replicate 4096 0xAA)
    (List.replicate 4096 0) (by decide) (by decide) (by decide)
    scenario_device_pages (by decide) (by decide) (by decide)
    (by rw [List.length_replicate]) (by rw [List.length_replicate])).2.2.2

/-- Witness for C9: a device of four pages of 4096 bytes started on a kernel where everything
succeeds, and a read of sectors `[8, 24)` into a buffer of `0xFF`. -/
theorem fresh_device_reads_zero_witness :
    (mem_swap_transfer 4096 4 (mem_swap_init 4096 4 env_ok).device
      8 16 (List.replicate 8192 0xFF) 0).buffer.take (16 * 512) = List.replicate (16 * 512) 0 :=
  (fresh_device_reads_zero 4096 4 env_ok 8 16 (List.replicate 8192 0xFF) (by decide) (by decide)
    (by decide) (by decide) (by decide) (by decide) (by rw [List.length_replicate])).2.2

/-- Witness for C10: four pages of 4096 bytes, sectors `[8, 24)`: a write puts the second
half of the buffer into page 2, and a read leaves the page table as it was. -/
theorem transfer_frame_witness :
    (mem_swap_transfer 4096 4 scenario_device 8 16 (List.replicate 8192 0xAA) 1).data[
        8 / SECTORS_PER_PAGE 4096 + 1]?
      = some (((List.replicate 8192 0xAA).drop (1 * 4096)).take 4096) ∧
    (mem_swap_transfer 4096 4 scenario_device 8 16 (List.replicate 8192 0xAA) 0).data
      = scenario_device.data :=
  have h := transfer_frame 4096 4 scenario_device 8 16 (List.replicate 8192 0xAA) (by decide)
    (by decide) scenario_device_pages (by decide) (by decide) (by decide)
    (by rw [List.length_replicate]; decide)
  ⟨(h.1 1 (by decide)).2.2.2.2.1 1 (by decide), h.2.2.1⟩

/-- C6, counterexample. A write of 8 sectors from sector 1 on: `mem_swap_transfer` takes the
"incorrect align" exit and copies nothing, and the request is completed with error 0, so
"acknowledged as success" and "the transfer passed validation" differ. -/
theorem misaligned_request_acknowledged_success :
    (mem_swap_request 4096 4 2 scenario_device [misaligned_write]).2 = true ∧
    (mem_swap_request 4096 4 2 scenario_device [misaligned_write]).1.transfers.map
      (fun t => (t.1, t.2.report)) = [(9, Report.incorrect_align)] ∧
    (mem_swap_request 4096 4 2 scenario_device [misaligned_write]).1.completions
      = [{ tag := 9, error := 0 }] ∧
    ¬ ((∀ c ∈ (mem_swap_request 4096 4 2 scenario_device [misaligned_write]).1.completions,
          c.error = 0) ↔
       (∀ t ∈ (mem_swap_request 4096 4 2 scenario_device [misaligned_write]).1.transfers,
          t.2.report = Report.copied)) := by
  decide

/-- The rollback of `mem_swap_init` frees nothing: whenever `vmalloc` succeeds and the first
failing `kmalloc` is the one for page `k < npages`, the function returns `-ENOMEM` with the
`k` pages allocated before still live, after `k - 1` calls of `kfree(NULL)`. -/
theorem init_failure_leaks (PS : Nat) (npages : Int) (env : InitEnv) (k : Nat)
    (hv : env.vmalloc_ok = true)
    (hfail : env.kmalloc_ok k = false) (hprev : ∀ j, j < k → env.kmalloc_ok j = true)
    (hk : (k : Int) < npages) :
    (mem_swap_init PS npages env).ret = -ENOMEM ∧
    (mem_swap_init PS npages env).kmem.live = List.range k ∧
    (mem_swap_init PS npages env).kmem.kfree_null = k - 1 ∧
    (mem_swap_init PS npages env).kmem.bad_free = [] := by
  obtain ⟨e1, e2, e3, e4⟩ := alloc_loop_failure PS env k hfail hprev npages.toNat 0
    { ptrs := [], pages := [], live := [], kfree_null := 0, bad_free := [], table_live := true }
    rfl (Nat.zero_le _) (by omega)
  unfold mem_swap_init
  simp only [hv, not_true_eq_false, if_false]
  generalize alloc_loop PS env npages.toNat 0
    { ptrs := [], pages := [], live := [], kfree_null := 0, bad_free := [], table_live := true }
    = res at e1 e2 e3 e4
  obtain ⟨m, b⟩ := res
  simp only at e1 e2 e3 e4
  subst e1
  simp only [e2, e3, e4]
  refine ⟨trivial, ?_, by omega, trivial⟩
  rw [List.nil_append, Nat.sub_zero, List.range_eq_range']

/-- C2, the code at the failing input. With four pages of 4096 bytes and the `kmalloc` for
page 2 failing, `mem_swap_init` returns `-ENOMEM` while the blocks of pages 0 and 1 are still
allocated: its rollback loop ran once and passed `device.data[2]`, which is `NULL`, to
`kfree`. -/
theorem init_leaks_on_kmalloc_failure :
    (mem_swap_init 4096 4 (env_fail_at 2)).ret = -ENOMEM ∧
    (mem_swap_init 4096 4 (env_fail_at 2)).kmem.ptrs = [some 0, some 1, none] ∧
    (mem_swap_init 4096 4 (env_fail_at 2)).kmem.live = [0, 1] ∧
    (mem_swap_init 4096 4 (env_fail_at 2)).kmem.kfree_null = 1 ∧
    (mem_swap_init 4096 4 (env_fail_at 2)).kmem.bad_free = [] := by
  decide

/-- C3, the code at the failing input. On four pages of 4096 bytes, a write of 8 sectors at
sector `2 ^ 32 * 8` is aligned and its page range starts at page `2 ^ 32`, far beyond the
device; the quotient stored into the `int` `page` is 0, so the transfer is not rejected and
overwrites page 0.  (The scenario of the specification, sectors 24 to 40, is rejected.) -/
theorem beyond_end_accepted :
    2 ^ 32 * 8 < 2 ^ 64 ∧
    (2 ^ 32 * 8) % SECTORS_PER_PAGE 4096 = 0 ∧ 8 % SECTORS_PER_PAGE 4096 = 0 ∧
    4 < 2 ^ 32 * 8 / SECTORS_PER_PAGE 4096 + 8 / SECTORS_PER_PAGE 4096 ∧
    (mem_swap_transfer 4096 4 scenario_device (2 ^ 32 * 8) 8 (List.replicate 4096 0xAA) 1).report
      = .copied ∧
    (mem_swap_transfer 4096 4 scenario_device (2 ^ 32 * 8) 8 (List.replicate 4096 0xAA) 1).derefs
      = [0] ∧
    (mem_swap_transfer 4096 4 scenario_device (2 ^ 32 * 8) 8 (List.replicate 4096 0xAA) 1).data
      = List.replicate 4096 0xAA :: List.replicate 3 (List.replicate 4096 0) ∧
    (mem_swap_transfer 4096 4 scenario_device 24 16 (List.replicate 8192 0xAA) 1).report
      = .beyond_end := by
  have hdata : ∀ (size : Nat) (pg : Page) (rest : List Page) (B : List u8),
      (mem_swap_transfer 4096 4 { size := size, data := pg :: rest } (2 ^ 32 * 8) 8 B 1).data
        = copy_page 4096 pg B :: rest := by
    intro size pg rest B
    have e1 : to_int ((2 ^ 32 * 8 / SECTORS_PER_PAGE 4096 : Nat) : Int) = 0 := by decide
    have e2 : to_int ((8 / SECTORS_PER_PAGE 4096 : Nat) : Int) = 1 := by decide
    have e3 : (2 ^ 32 * 8) % SECTORS_PER_PAGE 4096 = 0 := by decide
    have e4 : 8 % SECTORS_PER_PAGE 4096 = 0 := by decide
    have e5 : to_int ((0 : Int) + ((0 : Nat) : Int)) = 0 := by decide
    simp only [mem_swap_transfer, e1, e2, e3, e4, ne_eq, not_true_eq_false, or_self, if_false]
    rw [if_neg (by decide), if_pos (by decide)]
    have e6 : List.range (1 : Int).toNat = [0] := rfl
    simp only [e6, List.foldl_cons, List.foldl_nil, write_body, e5]
    simp
  have hcopy : copy_page 4096 (List.replicate 4096 0) (List.replicate 4096 0xAA)
      = List.replicate 4096 0xAA := by
    rw [copy_page, List.take_replicate, List.drop_replicate, Nat.min_self, Nat.sub_self,
      List.replicate_zero, List.append_nil]
  refine ⟨by decide, by decide, by decide, by decide, by decide, by decide, ?_, by decide⟩
  rw [scenario_device, List.replicate_succ, hdata, hcopy]

/-- C4, the code at the failing input. On four pages of 4096 bytes, a read of 8 sectors at
sector `(2 ^ 32 - 1) * 8` passes both checks: the quotient `2 ^ 32 - 1` stored into the `int`
`page` is -1, `page + npage - 1` is -1, below `npages`, and the copy loop dereferences
`dev->data[-1]`. -/
theorem index_escapes_page_table :
    (2 ^ 32 - 1) * 8 < 2 ^ 64 ∧
    (mem_swap_transfer 4096 4 scenario_device ((2 ^ 32 - 1) * 8) 8 (List.replicate 4096 0) 0).report
      = .copied ∧
    (mem_swap_transfer 4096 4 scenario_device ((2 ^ 32 - 1) * 8) 8 (List.replicate 4096 0) 0).derefs
      = [-1] ∧
    ¬ (∀ k ∈ (mem_swap_transfer 4096 4 scenario_device ((2 ^ 32 - 1) * 8) 8
        (List.replicate 4096 0) 0).derefs, 0 ≤ k ∧ k < 4) := by
  decide

/-- The beyond-end check does reject a range past the device when the quotients are small
enough for `int`: with `sector / SECTORS_PER_PAGE + nsect / SECTORS_PER_PAGE < 2 ^ 31` and
more than `npages`, the transfer takes the "Beyond-end" exit and touches nothing. -/
theorem beyond_end_rejected_of_fit (PS : Nat) (npages : Int) (dev : mem_swap_device)
    (sector nsect : Nat) (buffer : List u8) (write : Int)
    (hs : sector % SECTORS_PER_PAGE PS = 0) (hn : nsect % SECTORS_PER_PAGE PS = 0)
    (hfit : sector / SECTORS_PER_PAGE PS + nsect / SECTORS_PER_PAGE PS < 2 ^ 31)
    (hr : npages < ((sector / SECTORS_PER_PAGE PS + nsect / SECTORS_PER_PAGE PS : Nat) : Int)) :
    mem_swap_transfer PS npages dev sector nsect buffer write =
      { report := .beyond_end, data := dev.data, buffer := buffer, locks := [], derefs := [] } := by
  generalize hp : sector / SECTORS_PER_PAGE PS = p at hr hfit
  generalize hq : nsect / SECTORS_PER_PAGE PS = q at hr hfit
  have e1 : to_int ((p : Nat) : Int) = p := by rw [to_int_of_lt] <;> omega
  have e2 : to_int ((q : Nat) : Int) = q := by rw [to_int_of_lt] <;> omega
  have e3 : to_int ((p : Int) + q) = p + q := by rw [to_int_of_lt] <;> omega
  have e4 : to_int ((p : Int) + q - 1) = p + q - 1 := by
    rw [to_int_of_lt] <;> push_cast at hr <;> omega
  have e5 : (p : Int) + q - 1 ≥ npages := by push_cast at hr; omega
  unfold mem_swap_transfer
  simp only [hs, hn, ne_eq, not_true_eq_false, or_self, if_false, hp, hq, e1, e2, e3, e4, e5,
    if_true]

/-- Index safety does hold when the quotients are small enough for `int`: with
`sector / SECTORS_PER_PAGE + nsect / SECTORS_PER_PAGE < 2 ^ 31`, every index at which
`mem_swap_transfer` dereferences `dev->data` lies in `[0, npages)`. -/
theorem derefs_in_range_of_fit (PS : Nat) (npages : Int) (dev : mem_swap_device)
    (sector nsect : Nat) (buffer : List u8) (write : Int)
    (hnp : npages < 2 ^ 31) (hlen : (dev.data.length : Int) = npages)
    (hpages : ∀ pg ∈ dev.data, pg.length = PS)
    (hfit : sector / SECTORS_PER_PAGE PS + nsect / SECTORS_PER_PAGE PS < 2 ^ 31) :
    ∀ k ∈ (mem_swap_transfer PS npages dev sector nsect buffer write).derefs,
      0 ≤ k ∧ k < npages := by
  by_cases hal : sector % SECTORS_PER_PAGE PS ≠ 0 ∨ nsect % SECTORS_PER_PAGE PS ≠ 0
  · unfold mem_swap_transfer
    rw [if_pos hal]
    intro k hk
    cases hk
  · have hs : sector % SECTORS_PER_PAGE PS = 0 := by
      by_contra h; exact hal (Or.inl h)
    have hn : nsect % SECTORS_PER_PAGE PS = 0 := by
      by_contra h; exact hal (Or.inr h)
    by_cases hr : ((sector / SECTORS_PER_PAGE PS + nsect / SECTORS_PER_PAGE PS : Nat) : Int)
        ≤ npages
    · have hle : sector / SECTORS_PER_PAGE PS + nsect / SECTORS_PER_PAGE PS
          ≤ dev.data.length := by
        have := hlen ▸ hr
        exact_mod_cast this
      have hlt : dev.data.length < 2 ^ 31 := by
        have : (dev.data.length : Int) < 2 ^ 31 := hlen ▸ hnp
        exact_mod_cast this
      have hmem : ∀ k ∈ (List.range (nsect / SECTORS_PER_PAGE PS)).map
          (fun i => ((sector / SECTORS_PER_PAGE PS + i : Nat) : Int)),
          0 ≤ k ∧ k < npages := by
        intro k hk
        obtain ⟨i, hi, rfl⟩ := List.mem_map.1 hk
        have hi2 := List.mem_range.1 hi
        refine ⟨Int.ofNat_nonneg _, ?_⟩
        rw [← hlen]
        exact_mod_cast (by omega : sector / SECTORS_PER_PAGE PS + i < dev.data.length)
      rw [transfer_in_range PS npages dev sector nsect buffer write hnp hs hn hr]
      by_cases hw : write ≠ 0
      · rw [if_pos hw]
        obtain ⟨-, -, h3⟩ := write_loop_spec PS (sector / SECTORS_PER_PAGE PS) buffer dev.data []
          (nsect / SECTORS_PER_PAGE PS) hle hlt
        simp only [h3, List.nil_append]
        exact hmem
      · rw [if_neg hw]
        rw [read_loop_spec PS (sector / SECTORS_PER_PAGE PS) buffer dev.data []
          (nsect / SECTORS_PER_PAGE PS) hle hlt
          (fun j _ _ pg hj => hpages pg (List.getElem?_mem hj))]
        simp only [List.nil_append]
        exact hmem
    · rw [beyond_end_rejected_of_fit PS npages dev sector nsect buffer write hs hn hfit
        (by omega)]
      intro k hk
      cases hk

/-- Page quotients of two consecutive sector counts lie below the quotient of their end. -/
theorem div_add_div_le (a b c s : Nat) : a / s + b / s ≤ (a + b + c) / s := by
  rcases Nat.eq_zero_or_pos s with rfl | hs
  · simp
  · rw [Nat.le_div_iff_mul_le hs, Nat.add_mul]
    have h1 := Nat.div_mul_le_self a s
    have h2 := Nat.div_mul_le_self b s
    omega

/-- A transfer whose page quotients are small enough for `int` and whose buffer holds
`nsect * 512` bytes stays inside the page table and keeps the shape of the device: the number
of pages, the length of every page, and every dereferenced index in `[0, npages)`. -/
theorem transfer_keeps_table (PS : Nat) (npages : Int) (dev : mem_swap_device)
    (sector nsect : Nat) (buffer : List u8) (write : Int)
    (hPS : PS % 512 = 0)
    (hnp : npages < 2 ^ 31) (hlen : (dev.data.length : Int) = npages)
    (hpages : ∀ pg ∈ dev.data, pg.length = PS)
    (hfit : sector / SECTORS_PER_PAGE PS + nsect / SECTORS_PER_PAGE PS < 2 ^ 31)
    (hbuf : nsect * 512 ≤ buffer.length) :
    ((mem_swap_transfer PS npages dev sector nsect buffer write).data.length : Int) = npages ∧
    (∀ pg ∈ (mem_swap_transfer PS npages dev sector nsect buffer write).data, pg.length = PS) ∧
    (∀ k ∈ (mem_swap_transfer PS npages dev sector nsect buffer write).derefs,
      0 ≤ k ∧ k < npages) := by
  refine ⟨?_, ?_, derefs_in_range_of_fit PS npages dev sector nsect buffer write hnp hlen
    hpages hfit⟩
  all_goals
    by_cases hal : sector % SECTORS_PER_PAGE PS ≠ 0 ∨ nsect % SECTORS_PER_PAGE PS ≠ 0
    · have hd : (mem_swap_transfer PS npages dev sector nsect buffer write).data = dev.data := by
        unfold mem_swap_transfer
        rw [if_pos hal]
      rw [hd]
      first | exact hlen | exact hpages
    · have hs : sector % SECTORS_PER_PAGE PS = 0 := by
        by_contra h; exact hal (Or.inl h)
      have hn : nsect % SECTORS_PER_PAGE PS = 0 := by
        by_contra h; exact hal (Or.inr h)
      by_cases hr : ((sector / SECTORS_PER_PAGE PS + nsect / SECTORS_PER_PAGE PS : Nat) : Int)
          ≤ npages
      · by_cases hw : write ≠ 0
        · have hbytes := sectors_bytes PS nsect hPS hn
          obtain ⟨-, -, -, w4, w5, w6⟩ := transfer_write_data PS npages dev sector nsect buffer
            write hw hnp hlen hpages hs hn hr
          generalize (mem_swap_transfer PS npages dev sector nsect buffer write).data = wd
            at w4 w5 w6 ⊢
          first
          | (rw [w4]; exact hlen)
          | (intro pg hmem
             obtain ⟨j, hj⟩ := List.mem_iff_getElem?.1 hmem
             by_cases hin : sector / SECTORS_PER_PAGE PS ≤ j ∧
                 j < sector / SECTORS_PER_PAGE PS + nsect / SECTORS_PER_PAGE PS
             · have h := w5 (j - sector / SECTORS_PER_PAGE PS) (by omega)
               rw [Nat.add_sub_cancel' hin.1, hj] at h
               have hpg := Option.some.inj h
               rw [hpg, List.length_take, List.length_drop]
               have : (j - sector / SECTORS_PER_PAGE PS + 1) * PS
                   ≤ nsect / SECTORS_PER_PAGE PS * PS :=
                 Nat.mul_le_mul_right PS (by omega)
               rw [Nat.add_mul] at this
               omega
             · have h := w6 j (by omega)
               rw [hj] at h
               exact hpages pg (List.getElem?_mem h.symm))
        · rw [transfer_in_range PS npages dev sector nsect buffer write hnp hs hn hr, if_neg hw]
          first | exact hlen | exact hpages
      · rw [beyond_end_rejected_of_fit PS npages dev sector nsect buffer write hs hn hfit
          (by omega)]
        first | exact hlen | exact hpages

/-- The loop of `mem_swap_request` on one storage request whose end page fits an `int` and
whose buffers hold their sectors: after one iteration per chunk the request has been completed
once, with error 0, the next request has been fetched, every transfer stayed inside the page
table and the device has kept its shape. -/
theorem request_loop_one_request (PS : Nat) (npages : Int) (hPS : PS % 512 = 0)
    (hnp : npages < 2 ^ 31) :
    ∀ (rest : List Chunk) (tag pos : Nat) (cur : Chunk) (dir : Int) (queue : List request)
      (dev : mem_swap_device) (comps : List Completion) (trs : List (Nat × Transfer))
      (fuel : Nat),
      (dev.data.length : Int) = npages → (∀ pg ∈ dev.data, pg.length = PS) →
      (pos + cur.nsect + (rest.map (fun c => c.nsect)).sum) / SECTORS_PER_PAGE PS < 2 ^ 31 →
      (∀ c ∈ cur :: rest, c.nsect * 512 ≤ c.buffer.length) →
      ∃ (dev1 : mem_swap_device) (trs1 : List (Nat × Transfer)),
        request_loop PS npages (rest.length + 1 + fuel)
          { req := some { tag := tag, cmd_type := .REQ_TYPE_FS, pos := pos, cur := cur,
                          rest := rest, dir := dir },
            queue := queue, device := dev, completions := comps, transfers := trs } =
        request_loop PS npages fuel
          { req := (blk_fetch_request queue).1, queue := (blk_fetch_request queue).2,
            device := dev1, completions := comps ++ [{ tag := tag, error := 0 }],
            transfers := trs ++ trs1 } ∧
        trs1.length = rest.length + 1 ∧
        (∀ t ∈ trs1, ∀ k ∈ t.2.derefs, 0 ≤ k ∧ k < npages) ∧
        (dev1.data.length : Int) = npages ∧ (∀ pg ∈ dev1.data, pg.length = PS) := by
  intro rest
  induction rest with
  | nil =>
    intro tag pos cur dir queue dev comps trs fuel hlen hpages hend hbuf
    have hfit : pos / SECTORS_PER_PAGE PS + cur.nsect / SECTORS_PER_PAGE PS < 2 ^ 31 :=
      lt_of_le_of_lt (div_add_div_le pos cur.nsect _ _) hend
    obtain ⟨k1, k2, k3⟩ := transfer_keeps_table PS npages dev pos cur.nsect cur.buffer dir hPS
      hnp hlen hpages hfit (hbuf cur (List.mem_cons_self _ _))
    refine ⟨{ dev with data := (mem_swap_transfer PS npages dev pos cur.nsect cur.buffer
        dir).data },
      [(tag, mem_swap_transfer PS npages dev pos cur.nsect cur.buffer dir)], ?_, rfl, ?_, k1, k2⟩
    · have e : ([] : List Chunk).length + 1 + fuel = fuel + 1 := by simp; omega
      rw [e, request_loop]
      simp only [request_step, __blk_end_request_cur, ne_eq, not_true_eq_false, if_false]
    · intro t ht
      rw [List.mem_singleton.1 ht]
      exact k3
  | cons c cs ih =>
    intro tag pos cur dir queue dev comps trs fuel hlen hpages hend hbuf
    have hfit : pos / SECTORS_PER_PAGE PS + cur.nsect / SECTORS_PER_PAGE PS < 2 ^ 31 :=
      lt_of_le_of_lt (div_add_div_le pos cur.nsect _ _) hend
    obtain ⟨k1, k2, k3⟩ := transfer_keeps_table PS npages dev pos cur.nsect cur.buffer dir hPS
      hnp hlen hpages hfit (hbuf cur (List.mem_cons_self _ _))
    have hend2 : (pos + cur.nsect + c.nsect + (cs.map (fun c => c.nsect)).sum)
        / SECTORS_PER_PAGE PS < 2 ^ 31 := by
      have e : pos + cur.nsect + c.nsect + (cs.map (fun c => c.nsect)).sum
          = pos + cur.nsect + ((c :: cs).map (fun c => c.nsect)).sum := by
        simp only [List.map_cons, List.sum_cons]; omega
      rw [e]; exact hend
    obtain ⟨dev1, trs1, heq, hl, hin, hi1, hi2⟩ := ih tag (pos + cur.nsect) c dir queue
      { dev with data := (mem_swap_transfer PS npages dev pos cur.nsect cur.buffer dir).data }
      comps (trs ++ [(tag, mem_swap_transfer PS npages dev pos cur.nsect cur.buffer dir)])
      fuel k1 k2 hend2 (fun x hx => hbuf x (List.mem_cons_of_mem _ hx))
    refine ⟨dev1, (tag, mem_swap_transfer PS npages dev pos cur.nsect cur.buffer dir) :: trs1,
      ?_, by simp [hl], ?_, hi1, hi2⟩
    · have e : (c :: cs).length + 1 + fuel = (cs.length + 1 + fuel) + 1 := by
        simp only [List.length_cons]; omega
      rw [e, request_loop]
      simp only [request_step, __blk_end_request_cur, ne_eq, not_true_eq_false, if_false,
        List.append_nil]
      rw [heq, List.append_assoc]
      rfl
    · intro t ht
      rcases List.mem_cons.1 ht with h | h
      · rw [h]; exact k3
      · exact hin t h

/-- The loop of `mem_swap_request` on a queue that starts with the storage requests `pre`, each
with an end page that fits an `int` and buffers that hold their sectors: after one iteration per
chunk of `pre` every request of `pre` has been completed once, in order, with error 0, the loop
stands at the first request behind `pre`, every transfer stayed inside the page table and the
device has kept its shape. -/
theorem request_loop_storage_prefix (PS : Nat) (npages : Int) (hPS : PS % 512 = 0)
    (hnp : npages < 2 ^ 31) :
    ∀ (pre : List request),
      (∀ r ∈ pre, r.cmd_type = .REQ_TYPE_FS ∧
        end_sector r / SECTORS_PER_PAGE PS < 2 ^ 31 ∧
        ∀ c ∈ r.cur :: r.rest, c.nsect * 512 ≤ c.buffer.length) →
      ∀ (rest : List request) (dev : mem_swap_device) (comps : List Completion)
        (trs : List (Nat × Transfer)) (fuel : Nat),
        (dev.data.length : Int) = npages → (∀ pg ∈ dev.data, pg.length = PS) →
        ∃ (dev1 : mem_swap_device) (trs1 : List (Nat × Transfer)),
          request_loop PS npages (chunk_count pre + fuel)
            { req := (blk_fetch_request (pre ++ rest)).1,
              queue := (blk_fetch_request (pre ++ rest)).2,
              device := dev, completions := comps, transfers := trs } =
          request_loop PS npages fuel
            { req := (blk_fetch_request rest).1, queue := (blk_fetch_request rest).2,
              device := dev1,
              completions := comps ++ pre.map (fun r => { tag := r.tag, error := 0 }),
              transfers := trs ++ trs1 } ∧
          trs1.length = chunk_count pre ∧
          (∀ t ∈ trs1, ∀ k ∈ t.2.derefs, 0 ≤ k ∧ k < npages) ∧
          (dev1.data.length : Int) = npages ∧ (∀ pg ∈ dev1.data, pg.length = PS) := by
  intro pre
  induction pre with
  | nil =>
    intro _ rest dev comps trs fuel hlen hpages
    refine ⟨dev, [], ?_, rfl, ?_, hlen, hpages⟩
    · simp [chunk_count]
    · intro t ht
      cases ht
  | cons r pre ih =>
    intro hpre rest dev comps trs fuel hlen hpages
    obtain ⟨hc, he, hb⟩ := hpre r (List.mem_cons_self _ _)
    obtain ⟨tag, cmd, pos, cur, rst, dir⟩ := r
    simp only at hc hb
    subst hc
    obtain ⟨dev1, trs1, heq1, hl1, hin1, hi1, hj1⟩ := request_loop_one_request PS npages hPS hnp
      rst tag pos cur dir (pre ++ rest) dev comps trs (chunk_count pre + fuel) hlen hpages
      he hb
    obtain ⟨dev2, trs2, heq2, hl2, hin2, hi2, hj2⟩ := ih
      (fun x hx => hpre x (List.mem_cons_of_mem _ hx)) rest dev1
      (comps ++ [{ tag := tag, error := 0 }]) (trs ++ trs1) fuel hi1 hj1
    refine ⟨dev2, trs1 ++ trs2, ?_, ?_, ?_, hi2, hj2⟩
    · have e : chunk_count ((⟨tag, .REQ_TYPE_FS, pos, cur, rst, dir⟩ : request) :: pre) + fuel
          = rst.length + 1 + (chunk_count pre + fuel) := by
        simp only [chunk_count, List.map_cons, List.sum_cons]; omega
      have hf : blk_fetch_request
          ((⟨tag, .REQ_TYPE_FS, pos, cur, rst, dir⟩ : request) :: pre ++ rest)
          = (some ⟨tag, .REQ_TYPE_FS, pos, cur, rst, dir⟩, pre ++ rest) := rfl
      rw [e, hf]
      simp only []
      rw [heq1, heq2]
      simp only [List.map_cons, List.append_assoc, List.singleton_append]
    · rw [List.length_append, hl1, hl2]
      simp only [chunk_count, List.map_cons, List.sum_cons]
    · intro t ht
      rcases List.mem_append.1 ht with h | h
      · exact hin1 t h
      · exact hin2 t h

/-- C6, amended. Every storage request that `mem_swap_request` serves is acknowledged as
success, whichever exit `mem_swap_transfer` took.  On a device of `npages` pages of `PAGE_SIZE`
bytes and a queue that starts with the `REQ_TYPE_FS` requests `pre`, each with an end page
below `2 ^ 31` and buffers of `nsect * 512` bytes: after one loop iteration per chunk of `pre`
every request of `pre` has been completed once, in order, with error 0, one transfer per chunk
has been made, all inside the page table, and the loop stands at the request behind `pre`;
when nothing is behind `pre`, the loop then exits with the queue empty. -/
theorem storage_requests_acknowledged_success (PS : Nat) (npages : Int)
    (dev : mem_swap_device) (pre rest : List request)
    (hPS : PS % 512 = 0) (hnp : npages < 2 ^ 31)
    (hlen : (dev.data.length : Int) = npages) (hpages : ∀ pg ∈ dev.data, pg.length = PS)
    (hpre : ∀ r ∈ pre, r.cmd_type = .REQ_TYPE_FS ∧
      end_sector r / SECTORS_PER_PAGE PS < 2 ^ 31 ∧
      ∀ c ∈ r.cur :: r.rest, c.nsect * 512 ≤ c.buffer.length) :
    (mem_swap_request PS npages (chunk_count pre) dev (pre ++ rest)).1.completions
      = pre.map (fun r => { tag := r.tag, error := 0 }) ∧
    (mem_swap_request PS npages (chunk_count pre) dev (pre ++ rest)).1.req
      = (blk_fetch_request rest).1 ∧
    (mem_swap_request PS npages (chunk_count pre) dev (pre ++ rest)).1.queue
      = (blk_fetch_request rest).2 ∧
    (mem_swap_request PS npages (chunk_count pre) dev (pre ++ rest)).1.transfers.length
      = chunk_count pre ∧
    (∀ t ∈ (mem_swap_request PS npages (chunk_count pre) dev (pre ++ rest)).1.transfers,
      ∀ k ∈ t.2.derefs, 0 ≤ k ∧ k < npages) ∧
    (∀ fuel, chunk_count pre < fuel → rest = [] →
      (mem_swap_request PS npages fuel dev (pre ++ rest)).2 = true ∧
      (mem_swap_request PS npages fuel dev (pre ++ rest)).1.req = none ∧
      (mem_swap_request PS npages fuel dev (pre ++ rest)).1.queue = [] ∧
      (mem_swap_request PS npages fuel dev (pre ++ rest)).1.completions
        = pre.map (fun r => { tag := r.tag, error := 0 }) ∧
      (mem_swap_request PS npages fuel dev (pre ++ rest)).1.transfers.length
        = chunk_count pre) := by
  have hL := fun fuel => request_loop_storage_prefix PS npages hPS hnp pre hpre rest dev [] []
    fuel hlen hpages
  refine ⟨?_, ?_, ?_, ?_, ?_, ?_⟩
  · obtain ⟨dev1, trs1, heq, hl, hin, -, -⟩ := hL 0
    rw [Nat.add_zero] at heq
    rw [mem_swap_request, heq, request_loop]
    simp
  · obtain ⟨dev1, trs1, heq, hl, hin, -, -⟩ := hL 0
    rw [Nat.add_zero] at heq
    rw [mem_swap_request, heq, request_loop]
  · obtain ⟨dev1, trs1, heq, hl, hin, -, -⟩ := hL 0
    rw [Nat.add_zero] at heq
    rw [mem_swap_request, heq, request_loop]
  · obtain ⟨dev1, trs1, heq, hl, hin, -, -⟩ := hL 0
    rw [Nat.add_zero] at heq
    rw [mem_swap_request, heq, request_loop]
    simpa using hl
  · obtain ⟨dev1, trs1, heq, hl, hin, -, -⟩ := hL 0
    rw [Nat.add_zero] at heq
    rw [mem_swap_request, heq, request_loop]
    simpa using hin
  · intro fuel hfuel hrest
    subst hrest
    obtain ⟨f, rfl⟩ : ∃ f, fuel = chunk_count pre + (f + 1) :=
      ⟨fuel - chunk_count pre - 1, by omega⟩
    obtain ⟨dev1, trs1, heq, hl, hin, -, -⟩ := hL (f + 1)
    rw [mem_swap_request, heq]
    simp [request_loop, request_step, blk_fetch_request, hl]

/-- Witness for C6, amended: on the scenario device, a misaligned write and an aligned write
queued in front of a control request are both completed with error 0. -/
theorem storage_requests_acknowledged_success_witness :
    (mem_swap_request 4096 4 (chunk_count [misaligned_write, aligned_write]) scenario_device
      ([misaligned_write, aligned_write] ++ [control_request])).1.completions
      = [misaligned_write, aligned_write].map (fun r => { tag := r.tag, error := 0 }) :=
  (storage_requests_acknowledged_success 4096 4 scenario_device
    [misaligned_write, aligned_write] [control_request] (by decide) (by decide) (by decide)
    scenario_device_pages
    (by
      intro r hr
      rcases List.mem_cons.1 hr with h | h
      · subst h
        refine ⟨rfl, by decide, fun c hc => ?_⟩
        rw [List.mem_singleton.1 hc]
        show 8 * 512 ≤ (List.replicate 4096 (0xAA : u8)).length
        rw [List.length_replicate]
      · rw [List.mem_singleton.1 h]
        refine ⟨rfl, by decide, fun c hc => ?_⟩
        rw [List.mem_singleton.1 hc]
        show 8 * 512 ≤ (List.replicate 4096 (0xAA : u8)).length
        rw [List.length_replicate])).1

end MemSwap
